import Mathlib

/-!
A shallow embedding of the request-processing core of an MCP server.

Covered here, translated from the Python sources:
rate limiters (fixed window, moving window, token bucket) with their
stats snapshots, the rate-limit middleware decision, the manifest
registry, the persistent event store with its in-memory and SQL
adapters, string-argument coercion, and the exception-to-error
translation performed by the logging middleware.

Python floats and timestamps are modelled as rationals, Python ints as
integers.  Mutating methods become state-passing functions; the wall
clock becomes an explicit argument.
-/

namespace DiscordMCP

/-- Stats snapshot exposed by every rate limiter
(cooldowns/base.py, class WindowStats). -/
structure WindowStats where
  remaining : ℤ
  retry_after : ℚ
  reset_at : ℚ
  last_request : ℚ
  deriving Repr, DecidableEq

/-- State of cooldowns/fixed_window.py FixedWindowRateLimiter:
rate and per from the RateLimiter base class plus the token count and
window start of the instance. -/
structure FixedWindow where
  rate : ℤ
  per : ℚ
  tokens : ℤ
  window_start : ℚ
  deriving Repr, DecidableEq

namespace FixedWindow

/-- Construction: tokens start at rate, window_start at the
construction time. -/
def init (rate : ℤ) (per t0 : ℚ) : FixedWindow := ⟨rate, per, rate, t0⟩

/-- The private refresh step: once now reaches the window end, refill
the tokens to rate and slide the window start to now. -/
def refresh (s : FixedWindow) (now : ℚ) : FixedWindow :=
  if s.window_start + s.per ≤ now then { s with tokens := s.rate, window_start := now } else s

/-- consume: refresh, then succeed exactly when at least amount tokens
remain, decrementing on success. -/
def consume (s : FixedWindow) (now : ℚ) (amount : ℕ) : Bool × FixedWindow :=
  let s1 := s.refresh now
  if (amount : ℤ) ≤ s1.tokens then (true, { s1 with tokens := s1.tokens - amount })
  else (false, s1)

/-- reset: refill and restart the window at the current time. -/
def reset (s : FixedWindow) (now : ℚ) : FixedWindow :=
  { s with tokens := s.rate, window_start := now }

/-- The stats property.  When the stored window has expired it reports
a virtual current window without mutating the state. -/
def stats (s : FixedWindow) (now : ℚ) : WindowStats :=
  if s.window_start + s.per ≤ now then
    let windows_passed : ℤ := ⌊(now - s.window_start) / s.per⌋
    let vstart : ℚ := s.window_start + windows_passed * s.per
    { remaining := s.rate
      retry_after := if 0 < s.rate then 0 else max 0 (vstart + s.per - now)
      reset_at := vstart + s.per
      last_request := vstart }
  else
    { remaining := s.tokens
      retry_after := if 0 < s.tokens then 0 else max 0 (s.window_start + s.per - now)
      reset_at := s.window_start + s.per
      last_request := s.window_start }

/-- States reachable from a freshly constructed fixed-window limiter by
consume and reset calls at arbitrary times. -/
inductive Reach (rate : ℤ) (per t0 : ℚ) : FixedWindow → Prop
  | init : Reach rate per t0 (init rate per t0)
  | consume (s : FixedWindow) (now : ℚ) (amount : ℕ) :
      Reach rate per t0 s → Reach rate per t0 (s.consume now amount).2
  | reset (s : FixedWindow) (now : ℚ) :
      Reach rate per t0 s → Reach rate per t0 (s.reset now)

end FixedWindow

/-- State of cooldowns/token_bucket.py TokenBucketRateLimiter. -/
structure TokenBucket where
  rate : ℤ
  per : ℚ
  capacity : ℤ
  tokens : ℚ
  last_check : ℚ
  deriving Repr, DecidableEq

namespace TokenBucket

/-- Construction: capacity and tokens start at rate. -/
def init (rate : ℤ) (per t0 : ℚ) : TokenBucket := ⟨rate, per, rate, (rate : ℚ), t0⟩

/-- The private refill step: add elapsed times rate over per tokens,
capped at the capacity, and stamp the check time. -/
def refill (s : TokenBucket) (now : ℚ) : TokenBucket :=
  { s with
    tokens := min (s.capacity : ℚ) (s.tokens + (now - s.last_check) * ((s.rate : ℚ) / s.per))
    last_check := now }

/-- consume: refill, then succeed exactly when at least amount tokens
remain, decrementing on success. -/
def consume (s : TokenBucket) (now : ℚ) (amount : ℕ) : Bool × TokenBucket :=
  let s1 := s.refill now
  if (amount : ℚ) ≤ s1.tokens then (true, { s1 with tokens := s1.tokens - amount })
  else (false, s1)

/-- reset: tokens back to rate, check time restarted. -/
def reset (s : TokenBucket) (now : ℚ) : TokenBucket :=
  { s with tokens := (s.rate : ℚ), last_check := now }

/-- The stats property: a virtual refill (clamped below at zero) that
does not mutate the state.  The int conversion of the Python source is
a floor here because the virtual token count is nonnegative. -/
def stats (s : TokenBucket) (now : ℚ) : WindowStats :=
  let refill_rate := (s.rate : ℚ) / s.per
  let tokens := max 0 (min (s.capacity : ℚ) (s.tokens + (now - s.last_check) * refill_rate))
  { remaining := ⌊tokens⌋
    retry_after := if 1 ≤ tokens then 0 else max 0 ((1 - tokens) / refill_rate)
    reset_at := now + max 0 (((s.capacity : ℚ) - tokens) / refill_rate)
    last_request := s.last_check }

/-- States reachable from a freshly constructed token-bucket limiter by
consume and reset calls at arbitrary times. -/
inductive Reach (rate : ℤ) (per t0 : ℚ) : TokenBucket → Prop
  | init : Reach rate per t0 (init rate per t0)
  | consume (s : TokenBucket) (now : ℚ) (amount : ℕ) :
      Reach rate per t0 s → Reach rate per t0 (s.consume now amount).2
  | reset (s : TokenBucket) (now : ℚ) :
      Reach rate per t0 s → Reach rate per t0 (s.reset now)

end TokenBucket

/-- State of cooldowns/moving_window.py MovingWindowRateLimiter: a
deque of timestamps, oldest first. -/
structure MovingWindow where
  rate : ℤ
  per : ℚ
  tokens : List ℚ
  deriving Repr, DecidableEq

namespace MovingWindow

/-- Construction: the deque starts empty. -/
def init (rate : ℤ) (per : ℚ) : MovingWindow := ⟨rate, per, []⟩

/-- The private refresh step: pop timestamps from the front while they
are strictly older than per. -/
def refresh (s : MovingWindow) (now : ℚ) : MovingWindow :=
  { s with tokens := s.tokens.dropWhile (fun ts => decide (s.per < now - ts)) }

/-- consume: refresh, then succeed exactly when the window has room for
amount more timestamps, appending now that many times. -/
def consume (s : MovingWindow) (now : ℚ) (amount : ℕ) : Bool × MovingWindow :=
  let s1 := s.refresh now
  if (s1.tokens.length : ℤ) + amount ≤ s1.rate then
    (true, { s1 with tokens := s1.tokens ++ List.replicate amount now })
  else (false, s1)

/-- reset: clear the deque. -/
def reset (s : MovingWindow) : MovingWindow :=
  { s with tokens := [] }

/-- The stats property: skip the expired prefix, report the room left;
when none is left, the retry time comes from the earliest surviving
timestamp.  The Python source indexes that timestamp directly and would
raise on an empty deque; headD stands in for it (the claims only use
states where the deque is nonempty at that point). -/
def stats (s : MovingWindow) (now : ℚ) : WindowStats :=
  let live := s.tokens.dropWhile (fun ts => decide (s.per < now - ts))
  let remaining : ℤ := s.rate - live.length
  if 0 < remaining then
    { remaining := remaining
      retry_after := 0
      reset_at := now
      last_request := (s.tokens.getLast?).getD 0 }
  else
    let earliest := live.headD 0
    let retry_after := max 0 (earliest + s.per - now)
    { remaining := remaining
      retry_after := retry_after
      reset_at := now + retry_after
      last_request := (s.tokens.getLast?).getD 0 }

/-- States reachable from a freshly constructed moving-window limiter
by consume and reset calls at arbitrary times. -/
inductive Reach (rate : ℤ) (per : ℚ) : MovingWindow → Prop
  | init : Reach rate per (init rate per)
  | consume (s : MovingWindow) (now : ℚ) (amount : ℕ) :
      Reach rate per s → Reach rate per (s.consume now amount).2
  | reset (s : MovingWindow) : Reach rate per s → Reach rate per s.reset

end MovingWindow

/-! ## Association lists

Python dictionaries are modelled as association lists with
assignment-replaces semantics: setEntry overwrites the value at an
existing key in place and appends otherwise; getEntry finds the value
at a key. -/

def setEntry {κ β : Type} [DecidableEq κ] : List (κ × β) → κ → β → List (κ × β)
  | [], k, b => [(k, b)]
  | (k', b') :: rest, k, b =>
      if k' = k then (k, b) :: rest else (k', b') :: setEntry rest k b

def getEntry {κ β : Type} [DecidableEq κ] (l : List (κ × β)) (k : κ) : Option β :=
  (l.find? (fun p => decide (p.1 = k))).map (fun p => p.2)

/-! ## Manifest registry

shared/manifests.py and shared/repository.py.  The registry is a
defaultdict from manifest type to a dict from key to manifest,
flattened here into one association list keyed by (kind, key).  The
key is the uri for resource manifests and the name otherwise; a
missing key raises ValueError.  The callback is an opaque tag. -/

inductive ManifestKind
  | tool
  | resource
  | prompt
  deriving Repr, DecidableEq

/-- One manifest record (shared/manifests.py).  The uri field is
meaningful only for resource manifests, where the source requires it. -/
structure Manifest where
  kind : ManifestKind
  name : Option String
  uri : String
  enabled : Bool
  fnTag : String
  deriving Repr, DecidableEq

/-- The key under which add_manifest stores a manifest: the uri for a
ResourceManifest, the (optional) name otherwise. -/
def manifestKey (m : Manifest) : Option String :=
  match m.kind with
  | ManifestKind.resource => some m.uri
  | _ => m.name

/-- ManifestRepository state. -/
structure ManifestRepository where
  manifests : List ((ManifestKind × String) × Manifest)
  deriving Repr, DecidableEq

/-- ValueError raised by add_manifest when the manifest has no key. -/
inductive AddManifestError
  | valueError
  deriving Repr, DecidableEq

/-- ManifestRepository.add_manifest: raise ValueError when the key is
missing, otherwise assign the manifest at (kind, key), overwriting any
existing entry.  (The isinstance guard of the source is subsumed by
typing.) -/
def ManifestRepository.addManifest (repo : ManifestRepository) (m : Manifest) :
    Except AddManifestError ManifestRepository :=
  match manifestKey m with
  | none => Except.error AddManifestError.valueError
  | some k => Except.ok ⟨setEntry repo.manifests (m.kind, k) m⟩

/-- ManifestRepository.get_manifest: point lookup by (kind, key). -/
def ManifestRepository.getManifest (repo : ManifestRepository) (kind : ManifestKind)
    (key : String) : Option Manifest :=
  getEntry repo.manifests (kind, key)

/-! ## Event store

persistence/models/events.py, persistence/event_store.py and the two
adapters.  Timestamps are rationals, the JSON-RPC payload an opaque
string. -/

/-- EventRecord (persistence/models/events.py). -/
structure EventRecord where
  stream_id : String
  event_id : String
  created_at : ℚ
  message : String
  deriving Repr, DecidableEq

/-- In-memory adapter state (memory_adapter.py): a defaultdict from
stream id to the deque of its records plus a dict from event id to
record. -/
structure MemStore where
  streams : List (String × List EventRecord)
  events : List (String × EventRecord)
  deriving Repr, DecidableEq

namespace MemStore

def empty : MemStore := ⟨[], []⟩

/-- insert_event: append to the stream deque (created on first use by
the defaultdict) and index by event id. -/
def insertEvent (st : MemStore) (e : EventRecord) : MemStore :=
  { streams := setEntry st.streams e.stream_id ((getEntry st.streams e.stream_id).getD [] ++ [e])
    events := setEntry st.events e.event_id e }

/-- get_event: point lookup. -/
def getEvent (st : MemStore) (id : String) : Option EventRecord :=
  getEntry st.events id

/-- get_events_after: empty when the anchor is unknown, otherwise the
records of the anchor stream whose created_at is strictly later, in
deque order. -/
def getEventsAfter (st : MemStore) (id : String) : List EventRecord :=
  match getEntry st.events id with
  | none => []
  | some a =>
      ((getEntry st.streams a.stream_id).getD []).filter
        (fun e => decide (a.created_at < e.created_at))

/-- Well-formedness: every record sits in the stream named by its own
stream_id field and every stream deque is nondecreasing in created_at
(which holds when records are appended with a monotone clock, as
store_event does). -/
def WF (st : MemStore) : Prop :=
  ∀ p ∈ st.streams,
    (∀ e ∈ p.2, e.stream_id = p.1) ∧
      p.2.Pairwise (fun x y => x.created_at ≤ y.created_at)

instance (st : MemStore) : Decidable st.WF := by
  unfold WF
  infer_instance

end MemStore

/-- PersistentEventStore.replay_events_after on the in-memory adapter:
deliver every record returned by get_events_after through the callback
in list order, then return the stream id of the last one, when any.
The source returns None both for an unknown anchor and for a known
anchor with no later records. -/
def replayEventsAfter (st : MemStore) (id : String) : List EventRecord × Option String :=
  let evs := st.getEventsAfter id
  (evs, (evs.getLast?).map (fun e => e.stream_id))

/-- SQL adapter state (sqlite_adapter.py): the rows of the events
table. -/
structure SqlStore where
  rows : List EventRecord
  deriving Repr, DecidableEq

instance : IsTotal EventRecord (fun x y => x.created_at ≤ y.created_at) :=
  ⟨fun a b => le_total a.created_at b.created_at⟩

instance : IsTrans EventRecord (fun x y => x.created_at ≤ y.created_at) :=
  ⟨fun _ _ _ h1 h2 => le_trans h1 h2⟩

namespace SqlStore

/-- get_event: the first row with the given primary key. -/
def getEvent (st : SqlStore) (id : String) : Option EventRecord :=
  st.rows.find? (fun e => decide (e.event_id = id))

/-- The ORDER BY created_at ASC of the range query, modelled as a
stable sort on created_at (the order among equal keys is unspecified
in SQL). -/
def sortByCreated (l : List EventRecord) : List EventRecord :=
  List.insertionSort (fun x y => x.created_at ≤ y.created_at) l

/-- get_events_after: empty when the anchor is unknown, otherwise the
single range query on (stream_id, created_at > anchor.created_at)
ordered ascending. -/
def getEventsAfter (st : SqlStore) (id : String) : List EventRecord :=
  match st.getEvent id with
  | none => []
  | some a =>
      sortByCreated (st.rows.filter
        (fun e => decide (e.stream_id = a.stream_id) && decide (a.created_at < e.created_at)))

end SqlStore

/-! ## Exceptions and the logging middleware translation

utils/enums.py ErrorCodes, utils/exceptions.py and
middleware/logging.py LoggingMiddleware._process_exception.  Python
exceptions are modelled as an inductive type together with the
isinstance checks the translation performs; the relevant parts of the
Python class hierarchy (JSONDecodeError, ValidationError and
UnicodeDecodeError are subclasses of ValueError; FileNotFoundError,
IsADirectoryError and PermissionError are subclasses of OSError, and
IOError is an alias of OSError) are encoded in those checks. -/

inductive McpErrorKind
  | parse
  | invalidRequest
  | methodNotFound
  | invalidParams
  | internal
  | resourceNotFound
  | resourceReadError
  | promptNotFound
  | promptRenderError
  | disabled
  | rateLimitExceeded
  | permissionDenied
  | checkFailure
  deriving Repr, DecidableEq

/-- The protocol code of each error kind (utils/enums.py ErrorCodes). -/
def McpErrorKind.code : McpErrorKind → ℤ
  | parse => -32700
  | invalidRequest => -32600
  | methodNotFound => -32601
  | invalidParams => -32602
  | internal => -32603
  | resourceNotFound => -32001
  | resourceReadError => -32002
  | promptNotFound => -32003
  | promptRenderError => -32004
  | disabled => -32005
  | rateLimitExceeded => -32006
  | permissionDenied => -32007
  | checkFailure => -32008

/-- Python exceptions that can escape a handler, as far as the
translation distinguishes them.  runtimeConvError is the RuntimeError
raised by convert_string_arguments; it carries the parameter name and
the observed value that the formatted message names. -/
inductive PyExc
  | valueError
  | typeError
  | jsonDecodeError
  | validationError
  | unicodeDecodeError
  | fileNotFoundError
  | keyError
  | osError
  | isADirectoryError
  | permissionError
  | assertionError
  | runtimeConvError (param : String) (value : String)
  | mcpError (kind : McpErrorKind)
  | otherExc
  deriving Repr, DecidableEq

namespace PyExc

/-- isinstance(e, McpError). -/
def isMcpError : PyExc → Bool
  | mcpError _ => true
  | _ => false

/-- isinstance(e, ValueError): json.JSONDecodeError,
pydantic_core.ValidationError and UnicodeDecodeError are subclasses of
ValueError in Python. -/
def isValueError : PyExc → Bool
  | valueError => true
  | jsonDecodeError => true
  | validationError => true
  | unicodeDecodeError => true
  | _ => false

/-- isinstance(e, TypeError). -/
def isTypeError : PyExc → Bool
  | typeError => true
  | _ => false

/-- isinstance(e, (json.JSONDecodeError, pydantic_core.ValidationError,
UnicodeDecodeError)). -/
def isParseFamily : PyExc → Bool
  | jsonDecodeError => true
  | validationError => true
  | unicodeDecodeError => true
  | _ => false

/-- isinstance(e, (FileNotFoundError, KeyError)). -/
def isNotFoundFamily : PyExc → Bool
  | fileNotFoundError => true
  | keyError => true
  | _ => false

/-- isinstance(e, (OSError, IOError, IsADirectoryError)):
FileNotFoundError, IsADirectoryError and PermissionError are
subclasses of OSError, and IOError is an alias of OSError. -/
def isOsFamily : PyExc → Bool
  | osError => true
  | fileNotFoundError => true
  | isADirectoryError => true
  | permissionError => true
  | _ => false

/-- isinstance(e, PermissionError). -/
def isPermissionError : PyExc → Bool
  | permissionError => true
  | _ => false

/-- isinstance(e, AssertionError). -/
def isAssertionError : PyExc → Bool
  | assertionError => true
  | _ => false

end PyExc

/-- The outcome of LoggingMiddleware._process_exception: either the
original McpError returned unchanged, or a newly built typed error. -/
inductive ProcessedError
  | passthrough (kind : McpErrorKind)
  | translated (kind : McpErrorKind)
  deriving Repr, DecidableEq

/-- The protocol code carried by the processed error. -/
def ProcessedError.code : ProcessedError → ℤ
  | passthrough k => k.code
  | translated k => k.code

/-- LoggingMiddleware._process_exception, check for check in source
order. -/
def processException (e : PyExc) : ProcessedError :=
  match e with
  | PyExc.mcpError k => ProcessedError.passthrough k
  | _ =>
    if e.isValueError || e.isTypeError then ProcessedError.translated McpErrorKind.invalidParams
    else if e.isParseFamily then ProcessedError.translated McpErrorKind.parse
    else if e.isNotFoundFamily then ProcessedError.translated McpErrorKind.resourceNotFound
    else if e.isOsFamily then ProcessedError.translated McpErrorKind.resourceReadError
    else if e.isPermissionError then ProcessedError.translated McpErrorKind.permissionDenied
    else if e.isAssertionError then ProcessedError.translated McpErrorKind.checkFailure
    else ProcessedError.translated McpErrorKind.internal

/-! ## String-argument coercion

utils/converters.py convert_string_arguments.  Incoming values are
either strings or already-typed values (opaque tags here).  A declared
parameter type other than str carries a pydantic TypeAdapter, modelled
by its two validators; a validator returning none stands for a raised
ValueError, TypeError or ValidationError (the kinds the source
catches). -/

inductive PyVal
  | vstr (s : String)
  | typed (tag : String)
  deriving Repr, DecidableEq

/-- isinstance(value, str). -/
def PyVal.isString : PyVal → Bool
  | vstr _ => true
  | _ => false

/-- A pydantic TypeAdapter for one declared type: validate_json parses
a JSON string against the type, validate_python validates a Python
value directly. -/
structure TypeAdapter where
  validateJson : String → Option PyVal
  validatePython : PyVal → Option PyVal

/-- A declared parameter annotation: absent, str, or some other type
with its adapter; isCtx marks the context type DiscordMCPContext. -/
inductive ParamAnn
  | empty
  | strAnn
  | typed (isCtx : Bool) (adapter : TypeAdapter)

/-- A callback signature: the declared parameters in order. -/
structure Signature where
  params : List (String × ParamAnn)

/-- find_kwarg_by_type(fn, DiscordMCPContext): the name of the first
parameter annotated with the context type, if any. -/
def Signature.ctxParamName (sig : Signature) : Option String :=
  (sig.params.find? (fun p =>
    match p.2 with
    | ParamAnn.typed true _ => true
    | _ => false)).map (fun p => p.1)

/-- The annotation of a named parameter. -/
def Signature.lookupAnn (sig : Signature) (name : String) : Option ParamAnn :=
  (sig.params.find? (fun p => decide (p.1 = name))).map (fun p => p.2)

/-- The body of the loop of convert_string_arguments for one incoming
(name, value) pair, in source order: unknown names pass through; the
context parameter passes through; untyped and str parameters pass
through; non-string values pass through; otherwise parse the string as
JSON against the declared type, fall back to direct validation, and
raise RuntimeError naming the parameter and value when both fail. -/
def convertArg (sig : Signature) (name : String) (v : PyVal) : Except PyExc PyVal :=
  match sig.lookupAnn name with
  | none => Except.ok v
  | some ann =>
    if sig.ctxParamName = some name then Except.ok v
    else
      match ann with
      | ParamAnn.empty => Except.ok v
      | ParamAnn.strAnn => Except.ok v
      | ParamAnn.typed _ adapter =>
        match v with
        | PyVal.typed tag => Except.ok (PyVal.typed tag)
        | PyVal.vstr s =>
          match adapter.validateJson s with
          | some r => Except.ok r
          | none =>
            match adapter.validatePython (PyVal.vstr s) with
            | some r => Except.ok r
            | none => Except.error (PyExc.runtimeConvError name s)

/-- convert_string_arguments over the whole incoming map, stopping at
the first failure as the raised exception does. -/
def convertStringArguments (sig : Signature) (kwargs : List (String × PyVal)) :
    Except PyExc (List (String × PyVal)) :=
  kwargs.mapM (fun p => (convertArg sig p.1 p.2).map (fun v => (p.1, v)))

/-- Modelled from the spec (section 4.2, coercion rules 1 to 3), for
comparison with convertArg: 1. a string or untyped parameter passes
through; 2. a non-string incoming value passes through; 3. otherwise
parse as JSON against the parameter type and, if that fails, validate
directly. -/
def convertArgSpec (ann : ParamAnn) (name : String) (v : PyVal) : Except PyExc PyVal :=
  match ann with
  | ParamAnn.strAnn => Except.ok v
  | ParamAnn.empty => Except.ok v
  | ParamAnn.typed _ adapter =>
    if ¬ v.isString then Except.ok v
    else
      match v with
      | PyVal.typed tag => Except.ok (PyVal.typed tag)
      | PyVal.vstr s =>
        match adapter.validateJson s with
        | some r => Except.ok r
        | none =>
          match adapter.validatePython (PyVal.vstr s) with
          | some r => Except.ok r
          | none => Except.error (PyExc.runtimeConvError name s)

/-! ## Rate-limit middleware

middleware/rate_limit.py RateLimitMiddleware._process_rate_limit.  A
limiter of any of the three algorithms; the middleware consumes one
token from the bucket for the request and, on denial, raises
RateLimitExceeded with the stats of that bucket in its data field.
(In the source the bucket is fetched again through the cooldown
manager; consume leaves last_request recent enough that the prune
step cannot evict the denied bucket, so the same bucket state is
read.) -/

inductive Limiter
  | fw (s : FixedWindow)
  | mw (s : MovingWindow)
  | tb (s : TokenBucket)
  deriving Repr, DecidableEq

namespace Limiter

def consume : Limiter → ℚ → ℕ → Bool × Limiter
  | fw s, now, amount => ((s.consume now amount).1, fw (s.consume now amount).2)
  | mw s, now, amount => ((s.consume now amount).1, mw (s.consume now amount).2)
  | tb s, now, amount => ((s.consume now amount).1, tb (s.consume now amount).2)

def stats : Limiter → ℚ → WindowStats
  | fw s, now => s.stats now
  | mw s, now => s.stats now
  | tb s, now => s.stats now

def isFw : Limiter → Bool
  | fw _ => true
  | _ => false

def isTb : Limiter → Bool
  | tb _ => true
  | _ => false

/-- A limiter of any algorithm in a state reachable from construction
with the given rate and per. -/
def Reach (rate : ℤ) (per t0 : ℚ) : Limiter → Prop
  | fw s => FixedWindow.Reach rate per t0 s
  | mw s => MovingWindow.Reach rate per s
  | tb s => TokenBucket.Reach rate per t0 s

end Limiter

/-- The RateLimitExceeded error raised on denial: its protocol code
and the bucket stats embedded in its data field. -/
structure RateLimitError where
  code : ℤ
  data : WindowStats
  deriving Repr, DecidableEq

/-- _process_rate_limit for one request at one instant: when the
manifest is missing, disabled or has no cooldown the request passes
through untouched; otherwise consume one token from the bucket and on
denial raise RateLimitExceeded carrying the bucket stats as data. -/
def processRateLimit (manifest : Option Manifest) (hasCooldown : Bool) (l : Limiter)
    (now : ℚ) : Option RateLimitError × Limiter :=
  match manifest with
  | none => (none, l)
  | some m =>
    if ¬ m.enabled ∨ ¬ hasCooldown then (none, l)
    else
      let r := l.consume now 1
      if r.1 then (none, r.2)
      else (some ⟨McpErrorKind.rateLimitExceeded.code, r.2.stats now⟩, r.2)

/-! ## Supporting lemmas -/

theorem getEntry_setEntry_self {κ β : Type} [DecidableEq κ]
    (l : List (κ × β)) (k : κ) (b : β) : getEntry (setEntry l k b) k = some b := by
  induction l with
  | nil => simp [setEntry, getEntry]
  | cons p rest ih =>
    by_cases h : p.1 = k
    · simp [setEntry, getEntry, h]
    · simp only [setEntry, getEntry]
      rw [if_neg h]
      simp only [List.find?]
      rw [show (decide (p.1 = k)) = false by simpa using h]
      exact ih

theorem getEntry_setEntry_ne {κ β : Type} [DecidableEq κ]
    (l : List (κ × β)) (k k' : κ) (b : β) (hne : k' ≠ k) :
    getEntry (setEntry l k b) k' = getEntry l k' := by
  induction l with
  | nil =>
    simp only [setEntry, getEntry, List.find?]
    rw [show (decide (k = k')) = false by simpa using fun h => hne h.symm]
  | cons p rest ih =>
    by_cases h : p.1 = k
    · simp only [setEntry, getEntry]
      rw [if_pos h]
      simp only [List.find?]
      rw [show (decide (k = k')) = false by simpa using fun hh => hne hh.symm,
        show (decide (p.1 = k')) = false by simpa using h ▸ fun hh => hne hh.symm]
    · simp only [setEntry, getEntry]
      rw [if_neg h]
      by_cases h2 : p.1 = k'
      · simp [List.find?, h2]
      · simp only [List.find?]
        rw [show (decide (p.1 = k')) = false by simpa using h2]
        exact ih

theorem getEntry_mem {κ β : Type} [DecidableEq κ] {l : List (κ × β)} {k : κ} {b : β}
    (h : getEntry l k = some b) : (k, b) ∈ l := by
  unfold getEntry at h
  obtain ⟨p, hfind, hmap⟩ := Option.map_eq_some'.mp h
  have hk : p.1 = k := by simpa using List.find?_some hfind
  have hmem := List.mem_of_find?_eq_some hfind
  have : p = (k, b) := by
    cases p
    simp only at hk hmap
    rw [hk, hmap]
  exact this ▸ hmem

theorem mem_setEntry {κ β : Type} [DecidableEq κ] {l : List (κ × β)} {k : κ} {b : β}
    {p : κ × β} (h : p ∈ setEntry l k b) : p = (k, b) ∨ p ∈ l := by
  induction l with
  | nil => simpa [setEntry] using h
  | cons q rest ih =>
    obtain ⟨k', b'⟩ := q
    by_cases hq : k' = k
    · rw [setEntry, if_pos hq] at h
      rcases List.mem_cons.mp h with h1 | h1
      · exact Or.inl h1
      · exact Or.inr (List.mem_cons_of_mem _ h1)
    · rw [setEntry, if_neg hq] at h
      rcases List.mem_cons.mp h with h1 | h1
      · exact Or.inr (h1 ▸ List.mem_cons_self _ _)
      · rcases ih h1 with h2 | h2
        · exact Or.inl h2
        · exact Or.inr (List.mem_cons_of_mem _ h2)

theorem fw_consume_eq (s : FixedWindow) (now : ℚ) (amount : ℕ) :
    s.consume now amount =
      if (amount : ℤ) ≤ (s.refresh now).tokens
      then (true, { s.refresh now with tokens := (s.refresh now).tokens - amount })
      else (false, s.refresh now) := rfl

theorem fw_reach_invariant {rate : ℤ} {per t0 : ℚ} {s : FixedWindow}
    (h : FixedWindow.Reach rate per t0 s) (hrate : 0 ≤ rate) :
    s.rate = rate ∧ s.per = per ∧ 0 ≤ s.tokens ∧ s.tokens ≤ s.rate := by
  induction h with
  | init => exact ⟨rfl, rfl, hrate, le_refl _⟩
  | consume s now amount _ ih =>
    obtain ⟨h1, h2, h3, h4⟩ := ih
    have g1 : (s.refresh now).rate = rate := by
      unfold FixedWindow.refresh; split_ifs <;> exact h1
    have g2 : (s.refresh now).per = per := by
      unfold FixedWindow.refresh; split_ifs <;> exact h2
    have g3 : 0 ≤ (s.refresh now).tokens := by
      unfold FixedWindow.refresh; split_ifs
      · show 0 ≤ s.rate
        rw [h1]; exact hrate
      · exact h3
    have g4 : (s.refresh now).tokens ≤ (s.refresh now).rate := by
      unfold FixedWindow.refresh; split_ifs
      · exact le_refl _
      · exact h4
    rw [fw_consume_eq]
    split_ifs with ha
    · refine ⟨g1, g2, ?_, ?_⟩
      · show 0 ≤ (s.refresh now).tokens - (amount : ℤ)
        omega
      · show (s.refresh now).tokens - (amount : ℤ) ≤ (s.refresh now).rate
        omega
    · exact ⟨g1, g2, g3, g4⟩
  | reset s now _ ih =>
    obtain ⟨h1, h2, h3, h4⟩ := ih
    refine ⟨h1, h2, ?_, le_refl _⟩
    show 0 ≤ s.rate
    rw [h1]; exact hrate

theorem tb_consume_eq (s : TokenBucket) (now : ℚ) (amount : ℕ) :
    s.consume now amount =
      if (amount : ℚ) ≤ (s.refill now).tokens
      then (true, { s.refill now with tokens := (s.refill now).tokens - amount })
      else (false, s.refill now) := rfl

theorem tb_reach_invariant {rate : ℤ} {per t0 : ℚ} {s : TokenBucket}
    (h : TokenBucket.Reach rate per t0 s) :
    s.rate = rate ∧ s.per = per ∧ s.capacity = rate ∧ s.tokens ≤ (s.capacity : ℚ) := by
  induction h with
  | init => exact ⟨rfl, rfl, rfl, le_refl _⟩
  | consume s now amount _ ih =>
    obtain ⟨h1, h2, h3, h4⟩ := ih
    have g4 : (s.refill now).tokens ≤ ((s.refill now).capacity : ℚ) := min_le_left _ _
    rw [tb_consume_eq]
    split_ifs with ha
    · refine ⟨h1, h2, h3, ?_⟩
      show (s.refill now).tokens - (amount : ℚ) ≤ ((s.refill now).capacity : ℚ)
      have hnn : (0 : ℚ) ≤ (amount : ℚ) := Nat.cast_nonneg _
      linarith
    · exact ⟨h1, h2, h3, g4⟩
  | reset s now _ ih =>
    obtain ⟨h1, h2, h3, h4⟩ := ih
    refine ⟨h1, h2, h3, ?_⟩
    show (s.rate : ℚ) ≤ (s.capacity : ℚ)
    rw [h1, h3]

theorem mw_consume_eq (s : MovingWindow) (now : ℚ) (amount : ℕ) :
    s.consume now amount =
      if ((s.refresh now).tokens.length : ℤ) + amount ≤ s.rate
      then (true, { s.refresh now with tokens := (s.refresh now).tokens ++ List.replicate amount now })
      else (false, s.refresh now) := rfl

theorem mw_refresh_length_le (s : MovingWindow) (now : ℚ) :
    (s.refresh now).tokens.length ≤ s.tokens.length :=
  List.Sublist.length_le (List.dropWhile_sublist _)

theorem mw_reach_invariant {rate : ℤ} {per : ℚ} {s : MovingWindow}
    (h : MovingWindow.Reach rate per s) (hrate : 0 ≤ rate) :
    s.rate = rate ∧ s.per = per ∧ (s.tokens.length : ℤ) ≤ s.rate := by
  induction h with
  | init => exact ⟨rfl, rfl, by simpa [MovingWindow.init] using hrate⟩
  | consume s now amount _ ih =>
    obtain ⟨h1, h2, h3⟩ := ih
    have hdrop : ((s.refresh now).tokens.length : ℤ) ≤ s.rate := by
      have := mw_refresh_length_le s now
      omega
    rw [mw_consume_eq]
    split_ifs with ha
    · refine ⟨h1, h2, ?_⟩
      show (((s.refresh now).tokens ++ List.replicate amount now).length : ℤ) ≤ s.rate
      rw [List.length_append, List.length_replicate]
      push_cast
      push_cast at ha
      omega
    · exact ⟨h1, h2, hdrop⟩
  | reset s _ ih =>
    obtain ⟨h1, h2, h3⟩ := ih
    refine ⟨h1, h2, ?_⟩
    show ((List.length [] : ℕ) : ℤ) ≤ s.rate
    simp
    omega

/-- Inserting a record whose timestamp is at least every timestamp
already in its stream preserves well-formedness; this is how
store_event grows a store under a monotone clock. -/
theorem MemStore.WF.insertEvent {st : MemStore} (hwf : st.WF) (e : EventRecord)
    (hmono : ∀ x ∈ (getEntry st.streams e.stream_id).getD [], x.created_at ≤ e.created_at) :
    (st.insertEvent e).WF := by
  intro p hp
  rcases mem_setEntry hp with heq | hold
  · subst heq
    constructor
    · intro x hx
      rcases List.mem_append.mp hx with h1 | h1
      · cases hg : getEntry st.streams e.stream_id with
        | none => rw [hg] at h1; simp at h1
        | some es =>
          rw [hg] at h1
          exact (hwf _ (getEntry_mem hg)).1 x (by simpa using h1)
      · have : x = e := by simpa using h1
        rw [this]
    · rw [List.pairwise_append]
      refine ⟨?_, by simp, ?_⟩
      · cases hg : getEntry st.streams e.stream_id with
        | none => simp
        | some es => simpa using (hwf _ (getEntry_mem hg)).2
      · intro a ha b hb
        have : b = e := by simpa using hb
        rw [this]
        exact hmono a ha
  · exact hwf p hold

/-! ## The claims -/

/-- C1: the claim reads: for a manifest already present in the registry
under (kind, key) with enabled = true, a subsequent add of another
manifest with the same (kind, key) fails with a Duplicate error and
leaves the entry unchanged.  The source add_manifest performs no
duplicate check at all: here a registry holds an enabled manifest under
(tool, echo), adding a second manifest with the same kind and key
succeeds and the entry afterwards is the new manifest, not the old
one. -/
theorem c1_counterexample :
    ManifestRepository.getManifest
        ⟨[((ManifestKind.tool, "echo"), ⟨ManifestKind.tool, some "echo", "", true, "f1"⟩)]⟩
        ManifestKind.tool "echo"
      = some ⟨ManifestKind.tool, some "echo", "", true, "f1"⟩ ∧
    (⟨ManifestKind.tool, some "echo", "", true, "f1"⟩ : Manifest).enabled = true ∧
    ManifestRepository.addManifest
        ⟨[((ManifestKind.tool, "echo"), ⟨ManifestKind.tool, some "echo", "", true, "f1"⟩)]⟩
        ⟨ManifestKind.tool, some "echo", "", true, "f2"⟩
      = Except.ok ⟨[((ManifestKind.tool, "echo"), ⟨ManifestKind.tool, some "echo", "", true, "f2"⟩)]⟩ ∧
    (⟨ManifestKind.tool, some "echo", "", true, "f2"⟩ : Manifest)
      ≠ ⟨ManifestKind.tool, some "echo", "", true, "f1"⟩ :=
  ⟨rfl, rfl, rfl, by decide⟩

/-- C1 (amended): add_manifest never fails with a Duplicate error;
whenever the manifest has a key it succeeds and overwrites the entry at
(kind, key), even when the existing entry has enabled = true, and the
registry afterwards returns the new manifest for that key.  It fails
only with ValueError when the manifest has no name or URI. -/
theorem c1_amended (repo : ManifestRepository) (m m0 : Manifest) (k : String)
    (hk : manifestKey m = some k)
    (hdup : repo.getManifest m.kind k = some m0) (hen : m0.enabled = true) :
    repo.addManifest m = Except.ok ⟨setEntry repo.manifests (m.kind, k) m⟩ ∧
    ManifestRepository.getManifest ⟨setEntry repo.manifests (m.kind, k) m⟩ m.kind k = some m := by
  constructor
  · simp [ManifestRepository.addManifest, hk]
  · exact getEntry_setEntry_self _ _ _

theorem c1_amended_witness :
    ManifestRepository.addManifest
        ⟨[((ManifestKind.tool, "echo"), ⟨ManifestKind.tool, some "echo", "", true, "f1"⟩)]⟩
        ⟨ManifestKind.tool, some "echo", "", true, "f2"⟩
      = Except.ok ⟨setEntry [((ManifestKind.tool, "echo"),
          ⟨ManifestKind.tool, some "echo", "", true, "f1"⟩)]
          ((⟨ManifestKind.tool, some "echo", "", true, "f2"⟩ : Manifest).kind, "echo")
          ⟨ManifestKind.tool, some "echo", "", true, "f2"⟩⟩ ∧
    ManifestRepository.getManifest
        ⟨setEntry [((ManifestKind.tool, "echo"),
          ⟨ManifestKind.tool, some "echo", "", true, "f1"⟩)]
          ((⟨ManifestKind.tool, some "echo", "", true, "f2"⟩ : Manifest).kind, "echo")
          ⟨ManifestKind.tool, some "echo", "", true, "f2"⟩⟩
        (⟨ManifestKind.tool, some "echo", "", true, "f2"⟩ : Manifest).kind "echo"
      = some ⟨ManifestKind.tool, some "echo", "", true, "f2"⟩ :=
  c1_amended ⟨[((ManifestKind.tool, "echo"), ⟨ManifestKind.tool, some "echo", "", true, "f1"⟩)]⟩
    ⟨ManifestKind.tool, some "echo", "", true, "f2"⟩
    ⟨ManifestKind.tool, some "echo", "", true, "f1"⟩ "echo" rfl rfl rfl

/-- C2: the claim reads: for every stored anchor event,
replay_events_after returns the stream id owning the anchor, including
when no events exist after it, and returns nothing only when the
anchor is unknown.  The source returns the stream id of the last
replayed record and hence returns nothing also for a known anchor that
is the newest record of its stream: a store holding exactly one event
knows the anchor yet replay returns none. -/
theorem c2_counterexample :
    MemStore.getEvent (MemStore.empty.insertEvent ⟨"s1", "e1", 0, "m"⟩) "e1"
      = some ⟨"s1", "e1", 0, "m"⟩ ∧
    (replayEventsAfter (MemStore.empty.insertEvent ⟨"s1", "e1", 0, "m"⟩) "e1").2 = none :=
  ⟨rfl, rfl⟩

/-- C2 (amended): on a well-formed store, replay_events_after returns
the stream id of the stream owning a known anchor exactly when at least
one record exists strictly after the anchor; it returns nothing both
when the anchor is unknown and when no events follow a known anchor. -/
theorem c2_amended (st : MemStore) (aid : String) (hwf : st.WF) :
    (∀ a, getEntry st.events aid = some a →
      (st.getEventsAfter aid ≠ [] → (replayEventsAfter st aid).2 = some a.stream_id) ∧
      (st.getEventsAfter aid = [] → (replayEventsAfter st aid).2 = none)) ∧
    (getEntry st.events aid = none → (replayEventsAfter st aid).2 = none) := by
  constructor
  · intro a ha
    constructor
    · intro hne
      obtain ⟨x, hx⟩ : ∃ x, (st.getEventsAfter aid).getLast? = some x := by
        cases hxx : (st.getEventsAfter aid).getLast? with
        | none => exact absurd (List.getLast?_eq_none_iff.mp hxx) hne
        | some x => exact ⟨x, rfl⟩
      obtain ⟨hne2, hxeq⟩ := List.mem_getLast?_eq_getLast (Option.mem_def.mpr hx)
      have hxmem : x ∈ st.getEventsAfter aid := hxeq ▸ List.getLast_mem hne2
      have hsid : x.stream_id = a.stream_id := by
        have hrw : st.getEventsAfter aid =
            ((getEntry st.streams a.stream_id).getD []).filter
              (fun e => decide (a.created_at < e.created_at)) := by
          unfold MemStore.getEventsAfter
          rw [ha]
        rw [hrw] at hxmem
        have hmem' : x ∈ (getEntry st.streams a.stream_id).getD [] :=
          List.mem_of_mem_filter hxmem
        cases hg : getEntry st.streams a.stream_id with
        | none => rw [hg] at hmem'; simp at hmem'
        | some es =>
          rw [hg] at hmem'
          exact (hwf _ (getEntry_mem hg)).1 _ (by simpa using hmem')
      show ((st.getEventsAfter aid).getLast?).map (fun e => e.stream_id) = some a.stream_id
      rw [hx]
      simp [hsid]
    · intro hempty
      show ((st.getEventsAfter aid).getLast?).map (fun e => e.stream_id) = none
      rw [hempty]
      rfl
  · intro hnone
    show ((st.getEventsAfter aid).getLast?).map (fun e => e.stream_id) = none
    unfold MemStore.getEventsAfter
    rw [hnone]
    rfl

theorem c2_amended_witness :
    (replayEventsAfter
      ((MemStore.empty.insertEvent ⟨"s1", "e1", 0, "m1"⟩).insertEvent ⟨"s1", "e2", 1, "m2"⟩)
      "e1").2 = some "s1" ∧
    (replayEventsAfter
      ((MemStore.empty.insertEvent ⟨"s1", "e1", 0, "m1"⟩).insertEvent ⟨"s1", "e2", 1, "m2"⟩)
      "missing").2 = none :=
  ⟨((c2_amended
      ((MemStore.empty.insertEvent ⟨"s1", "e1", 0, "m1"⟩).insertEvent ⟨"s1", "e2", 1, "m2"⟩)
      "e1" (by decide)).1 ⟨"s1", "e1", 0, "m1"⟩ rfl).1 (by decide),
   (c2_amended
      ((MemStore.empty.insertEvent ⟨"s1", "e1", 0, "m1"⟩).insertEvent ⟨"s1", "e2", 1, "m2"⟩)
      "missing" (by decide)).2 rfl⟩

/-- C8: for every known anchor, every event delivered by
replay_events_after has the stream id of the anchor and a created_at
strictly later than the anchor, and the delivered sequence is
nondecreasing in created_at; an unknown anchor delivers nothing.  For
the in-memory adapter the ordering rests on well-formedness of the
store (stream deques sorted by created_at, as produced by appends
under a monotone clock); the SQL adapter sorts in the query itself. -/
theorem c8_events_after_stream_order (st : MemStore) (sq : SqlStore) (aid : String) :
    (st.WF → ∀ a, getEntry st.events aid = some a →
      (∀ e ∈ st.getEventsAfter aid, e.stream_id = a.stream_id ∧ a.created_at < e.created_at) ∧
      (st.getEventsAfter aid).Pairwise (fun x y => x.created_at ≤ y.created_at)) ∧
    (getEntry st.events aid = none → st.getEventsAfter aid = []) ∧
    (∀ a, sq.getEvent aid = some a →
      (∀ e ∈ sq.getEventsAfter aid, e.stream_id = a.stream_id ∧ a.created_at < e.created_at) ∧
      (sq.getEventsAfter aid).Pairwise (fun x y => x.created_at ≤ y.created_at)) ∧
    (sq.getEvent aid = none → sq.getEventsAfter aid = []) := by
  refine ⟨?_, ?_, ?_, ?_⟩
  · intro hwf a ha
    have hrw : st.getEventsAfter aid =
        ((getEntry st.streams a.stream_id).getD []).filter
          (fun e => decide (a.created_at < e.created_at)) := by
      unfold MemStore.getEventsAfter
      rw [ha]
    rw [hrw]
    cases hg : getEntry st.streams a.stream_id with
    | none => simp
    | some es =>
      obtain ⟨hsid, hpw⟩ := hwf _ (getEntry_mem hg)
      constructor
      · intro e he
        have hmem := List.mem_of_mem_filter he
        have hcond := List.of_mem_filter he
        exact ⟨hsid e (by simpa using hmem), by simpa using hcond⟩
      · exact List.Pairwise.sublist (List.filter_sublist _) (by simpa using hpw)
  · intro hnone
    unfold MemStore.getEventsAfter
    rw [hnone]
  · intro a ha
    have hrw : sq.getEventsAfter aid =
        SqlStore.sortByCreated (sq.rows.filter
          (fun e => decide (e.stream_id = a.stream_id) && decide (a.created_at < e.created_at))) := by
      unfold SqlStore.getEventsAfter
      rw [ha]
    rw [hrw]
    unfold SqlStore.sortByCreated
    constructor
    · intro e he
      have hmem : e ∈ sq.rows.filter
          (fun e => decide (e.stream_id = a.stream_id) && decide (a.created_at < e.created_at)) :=
        (List.perm_insertionSort _ _).mem_iff.mp he
      have hcond := List.of_mem_filter hmem
      simp only [Bool.and_eq_true, decide_eq_true_eq] at hcond
      exact hcond
    · exact List.sorted_insertionSort _ _
  · intro hnone
    unfold SqlStore.getEventsAfter
    rw [hnone]

theorem c8_events_after_stream_order_witness :
    (∀ e ∈ ((MemStore.empty.insertEvent ⟨"s1", "e1", 0, "m1"⟩).insertEvent
        ⟨"s1", "e2", 1, "m2"⟩).getEventsAfter "e1",
      e.stream_id = "s1" ∧ (0 : ℚ) < e.created_at) ∧
    ((SqlStore.mk [⟨"s1", "e1", 0, "m1"⟩, ⟨"s1", "e2", 1, "m2"⟩]).getEventsAfter
        "e1").Pairwise (fun x y => x.created_at ≤ y.created_at) :=
  ⟨((c8_events_after_stream_order
      ((MemStore.empty.insertEvent ⟨"s1", "e1", 0, "m1"⟩).insertEvent ⟨"s1", "e2", 1, "m2"⟩)
      (SqlStore.mk [⟨"s1", "e1", 0, "m1"⟩, ⟨"s1", "e2", 1, "m2"⟩]) "e1").1
      (by decide) ⟨"s1", "e1", 0, "m1"⟩ rfl).1,
   ((c8_events_after_stream_order
      ((MemStore.empty.insertEvent ⟨"s1", "e1", 0, "m1"⟩).insertEvent ⟨"s1", "e2", 1, "m2"⟩)
      (SqlStore.mk [⟨"s1", "e1", 0, "m1"⟩, ⟨"s1", "e2", 1, "m2"⟩]) "e1").2.2.1
      ⟨"s1", "e1", 0, "m1"⟩ rfl).2⟩

/-- C3: the claim reads: when an incoming string value fails both JSON
parsing and direct validation for a non-string parameter type, the
coercion fails with InvalidParams (-32602) naming the parameter and the
value.  In the source convert_string_arguments raises a RuntimeError,
and the logging middleware translates RuntimeError to Internal
(-32603), not InvalidParams: here a parameter typed with an adapter
that rejects the string abc yields a RuntimeError that surfaces with
code -32603. -/
theorem c3_counterexample :
    convertArg
        ⟨[("count", ParamAnn.typed false
          ⟨fun s => if s = "5" then some (PyVal.typed "int 5") else none, fun _ => none⟩)]⟩
        "count" (PyVal.vstr "abc")
      = Except.error (PyExc.runtimeConvError "count" "abc") ∧
    processException (PyExc.runtimeConvError "count" "abc")
      = ProcessedError.translated McpErrorKind.internal ∧
    McpErrorKind.internal.code = -32603 ∧
    McpErrorKind.internal.code ≠ McpErrorKind.invalidParams.code :=
  ⟨rfl, rfl, rfl, by decide⟩

/-- C3 (amended): when both validations fail for a string value bound
to a non-context parameter with a declared non-string type, the
coercion fails with a RuntimeError carrying the parameter name and the
observed value, and the logging middleware surfaces it as Internal
(code -32603), not InvalidParams. -/
theorem c3_amended (sig : Signature) (name : String) (isCtx : Bool)
    (adapter : TypeAdapter) (s : String)
    (hann : sig.lookupAnn name = some (ParamAnn.typed isCtx adapter))
    (hctx : sig.ctxParamName ≠ some name)
    (hj : adapter.validateJson s = none)
    (hp : adapter.validatePython (PyVal.vstr s) = none) :
    convertArg sig name (PyVal.vstr s) = Except.error (PyExc.runtimeConvError name s) ∧
    processException (PyExc.runtimeConvError name s)
      = ProcessedError.translated McpErrorKind.internal ∧
    McpErrorKind.internal.code = -32603 := by
  refine ⟨?_, rfl, rfl⟩
  simp [convertArg, hann, hctx, hj, hp]

theorem c3_amended_witness :
    convertArg
        ⟨[("limit", ParamAnn.typed false ⟨fun _ => none, fun _ => none⟩)]⟩
        "limit" (PyVal.vstr "zzz")
      = Except.error (PyExc.runtimeConvError "limit" "zzz") ∧
    processException (PyExc.runtimeConvError "limit" "zzz")
      = ProcessedError.translated McpErrorKind.internal ∧
    McpErrorKind.internal.code = -32603 :=
  c3_amended ⟨[("limit", ParamAnn.typed false ⟨fun _ => none, fun _ => none⟩)]⟩
    "limit" false ⟨fun _ => none, fun _ => none⟩ "zzz" rfl (by decide) rfl rfl

/-- C4: the claim reads: the logging middleware maps each escaping
exception to the typed error of the first matching kind, and in
particular a PermissionError always yields PermissionDenied (-32007).
In Python PermissionError is a subclass of OSError and the OSError
check precedes the PermissionError check, so the source maps a
PermissionError to ResourceReadError (-32002) and its dedicated
PermissionDenied branch is dead code; likewise JSONDecodeError and
pydantic ValidationError are subclasses of ValueError, so they yield
InvalidParams rather than Parse.  The claim matches the intent that
the source itself spells out in its unreachable branches, so this is a
bug in the code. -/
theorem c4_code_bug :
    processException PyExc.permissionError
      = ProcessedError.translated McpErrorKind.resourceReadError ∧
    McpErrorKind.resourceReadError.code = -32002 ∧
    McpErrorKind.resourceReadError.code ≠ McpErrorKind.permissionDenied.code ∧
    processException PyExc.jsonDecodeError
      = ProcessedError.translated McpErrorKind.invalidParams ∧
    processException PyExc.validationError
      = ProcessedError.translated McpErrorKind.invalidParams ∧
    processException PyExc.unicodeDecodeError
      = ProcessedError.translated McpErrorKind.invalidParams :=
  ⟨rfl, rfl, by decide, rfl, rfl, rfl⟩

/-- C9: coercion handles every non-context parameter found in the
signature by the ordered rules of the spec: a string-typed or untyped
parameter passes through, a non-string value passes through, and a
string value for any other declared type is parsed as JSON against the
type with direct validation only as the fallback.  convertArgSpec is
the rules as the spec words them; convertArg is the source loop
body. -/
theorem c9_coercion_rules (sig : Signature) (name : String) (ann : ParamAnn) (v : PyVal)
    (hann : sig.lookupAnn name = some ann)
    (hctx : sig.ctxParamName ≠ some name) :
    convertArg sig name v = convertArgSpec ann name v := by
  unfold convertArg convertArgSpec
  cases ann with
  | empty => simp [hann, hctx]
  | strAnn => simp [hann, hctx]
  | typed isCtx adapter =>
    cases v with
    | vstr s => simp [hann, hctx, PyVal.isString]
    | typed tag => simp [hann, hctx, PyVal.isString]

theorem c9_coercion_rules_witness :
    convertArg
        ⟨[("flag", ParamAnn.typed false
          ⟨fun s => if s = "true" then some (PyVal.typed "bool true") else none,
           fun _ => none⟩)]⟩
        "flag" (PyVal.vstr "true")
      = convertArgSpec
          (ParamAnn.typed false
            ⟨fun s => if s = "true" then some (PyVal.typed "bool true") else none,
             fun _ => none⟩)
          "flag" (PyVal.vstr "true") :=
  c9_coercion_rules
    ⟨[("flag", ParamAnn.typed false
      ⟨fun s => if s = "true" then some (PyVal.typed "bool true") else none,
       fun _ => none⟩)]⟩
    "flag"
    (ParamAnn.typed false
      ⟨fun s => if s = "true" then some (PyVal.typed "bool true") else none,
       fun _ => none⟩)
    (PyVal.vstr "true") rfl (by decide)

/-! ### Denial-time stats of the three limiters -/

theorem dropWhile_dropWhile_self {α : Type} (p : α → Bool) (l : List α) :
    (l.dropWhile p).dropWhile p = l.dropWhile p := by
  induction l with
  | nil => rfl
  | cons a l ih =>
    by_cases h : p a
    · rw [List.dropWhile_cons_of_pos h]
      exact ih
    · rw [List.dropWhile_cons_of_neg h, List.dropWhile_cons_of_neg h]

theorem fw_stats_def (s : FixedWindow) (now : ℚ) :
    s.stats now =
      if s.window_start + s.per ≤ now then
        { remaining := s.rate
          retry_after := if 0 < s.rate then 0
            else max 0 (s.window_start + (⌊(now - s.window_start) / s.per⌋ : ℚ) * s.per + s.per - now)
          reset_at := s.window_start + (⌊(now - s.window_start) / s.per⌋ : ℚ) * s.per + s.per
          last_request := s.window_start + (⌊(now - s.window_start) / s.per⌋ : ℚ) * s.per }
      else
        { remaining := s.tokens
          retry_after := if 0 < s.tokens then 0 else max 0 (s.window_start + s.per - now)
          reset_at := s.window_start + s.per
          last_request := s.window_start } := rfl

/-- A fixed-window limiter that denies a one-token consume does so with
zero tokens inside a live window, stays unchanged, and reports
remaining 0 with a positive retry time equal to the distance to the
window end. -/
theorem fw_denied_state_stats (s : FixedWindow) (now : ℚ)
    (hper : 0 < s.per) (htok : 0 ≤ s.tokens) (hrate1 : 1 ≤ s.rate)
    (hden : (s.consume now 1).1 = false) :
    s.tokens = 0 ∧ ¬ s.window_start + s.per ≤ now ∧ (s.consume now 1).2 = s ∧
    ((s.consume now 1).2.stats now).remaining = 0 ∧
    ((s.consume now 1).2.stats now).retry_after = s.window_start + s.per - now ∧
    0 < ((s.consume now 1).2.stats now).retry_after := by
  have hc : ¬ s.window_start + s.per ≤ now := by
    intro hc
    have href : s.refresh now = { s with tokens := s.rate, window_start := now } := by
      unfold FixedWindow.refresh
      rw [if_pos hc]
    rw [fw_consume_eq, href] at hden
    rw [if_pos (show ((1:ℕ):ℤ) ≤
        ({ s with tokens := s.rate, window_start := now } : FixedWindow).tokens by
      show ((1:ℕ):ℤ) ≤ s.rate
      rw [Nat.cast_one]
      exact hrate1)] at hden
    simp at hden
  have href : s.refresh now = s := by
    unfold FixedWindow.refresh
    rw [if_neg hc]
  have htz : s.tokens = 0 := by
    rw [fw_consume_eq, href] at hden
    by_cases hd : ((1:ℕ):ℤ) ≤ s.tokens
    · rw [if_pos hd] at hden
      simp at hden
    · rw [Nat.cast_one] at hd
      omega
  have hpost : (s.consume now 1).2 = s := by
    rw [fw_consume_eq, href,
      if_neg (show ¬ ((1:ℕ):ℤ) ≤ s.tokens by rw [Nat.cast_one, htz]; decide)]
  have hnow : now < s.window_start + s.per := not_le.mp hc
  have hretry : (s.stats now).retry_after = s.window_start + s.per - now := by
    rw [fw_stats_def, if_neg hc]
    show (if 0 < s.tokens then (0:ℚ) else max 0 (s.window_start + s.per - now)) = _
    rw [if_neg (by rw [htz]; exact lt_irrefl 0)]
    exact max_eq_right (by linarith)
  refine ⟨htz, hc, hpost, ?_, ?_, ?_⟩
  · rw [hpost, fw_stats_def, if_neg hc]
    exact htz
  · rw [hpost]
    exact hretry
  · rw [hpost, hretry]
    linarith

theorem tb_stats_def (s : TokenBucket) (now : ℚ) :
    s.stats now =
      { remaining :=
          ⌊max 0 (min (s.capacity : ℚ) (s.tokens + (now - s.last_check) * ((s.rate : ℚ) / s.per)))⌋
        retry_after :=
          if 1 ≤ max 0 (min (s.capacity : ℚ)
              (s.tokens + (now - s.last_check) * ((s.rate : ℚ) / s.per))) then 0
          else max 0 ((1 - max 0 (min (s.capacity : ℚ)
              (s.tokens + (now - s.last_check) * ((s.rate : ℚ) / s.per)))) / ((s.rate : ℚ) / s.per))
        reset_at := now + max 0 (((s.capacity : ℚ) - max 0 (min (s.capacity : ℚ)
              (s.tokens + (now - s.last_check) * ((s.rate : ℚ) / s.per)))) / ((s.rate : ℚ) / s.per))
        last_request := s.last_check } := rfl

/-- A token-bucket limiter that denies a one-token consume reports
remaining 0 and a positive retry time at the denial instant. -/
theorem tb_denied_state_stats (s : TokenBucket) (now : ℚ)
    (hper : 0 < s.per) (hrate1 : 1 ≤ s.rate)
    (hden : (s.consume now 1).1 = false) :
    ((s.consume now 1).2.stats now).remaining = 0 ∧
    0 < ((s.consume now 1).2.stats now).retry_after := by
  have hnotle : ¬ ((1:ℕ):ℚ) ≤ (s.refill now).tokens := by
    intro hle
    rw [tb_consume_eq, if_pos hle] at hden
    simp at hden
  rw [Nat.cast_one] at hnotle
  have htlt : (s.refill now).tokens < 1 := not_le.mp hnotle
  have hpost : (s.consume now 1).2 = s.refill now := by
    rw [tb_consume_eq, if_neg (by rw [Nat.cast_one]; exact hnotle)]
  have hcap : (s.refill now).tokens ≤ ((s.refill now).capacity : ℚ) := min_le_left _ _
  have hlast : (s.refill now).last_check = now := rfl
  have hrpos : (0:ℚ) < ((s.refill now).rate : ℚ) := by
    show (0:ℚ) < (s.rate : ℚ)
    have : (0:ℤ) < s.rate := by omega
    exact_mod_cast this
  have hppos : (0:ℚ) < (s.refill now).per := hper
  have hrr : (0:ℚ) < ((s.refill now).rate : ℚ) / (s.refill now).per := div_pos hrpos hppos
  have hvt : min ((s.refill now).capacity : ℚ)
      ((s.refill now).tokens +
        (now - (s.refill now).last_check) * (((s.refill now).rate : ℚ) / (s.refill now).per))
      = (s.refill now).tokens := by
    rw [hlast, sub_self, zero_mul, add_zero]
    exact min_eq_right hcap
  have hmaxlt : max 0 (s.refill now).tokens < 1 := max_lt zero_lt_one htlt
  constructor
  · rw [hpost, tb_stats_def]
    dsimp only
    rw [hvt, Int.floor_eq_zero_iff, Set.mem_Ico]
    exact ⟨le_max_left _ _, hmaxlt⟩
  · rw [hpost, tb_stats_def]
    dsimp only
    rw [hvt, if_neg (not_le.mpr hmaxlt)]
    have hpos : 0 < (1 - max 0 (s.refill now).tokens) / (((s.refill now).rate : ℚ) / (s.refill now).per) :=
      div_pos (by linarith) hrr
    exact lt_max_iff.mpr (Or.inr hpos)

theorem mw_stats_def (s : MovingWindow) (now : ℚ) :
    s.stats now =
      if 0 < s.rate - ((s.tokens.dropWhile (fun ts => decide (s.per < now - ts))).length : ℤ) then
        { remaining := s.rate - ((s.tokens.dropWhile (fun ts => decide (s.per < now - ts))).length : ℤ)
          retry_after := 0
          reset_at := now
          last_request := (s.tokens.getLast?).getD 0 }
      else
        { remaining := s.rate - ((s.tokens.dropWhile (fun ts => decide (s.per < now - ts))).length : ℤ)
          retry_after := max 0
            ((s.tokens.dropWhile (fun ts => decide (s.per < now - ts))).headD 0 + s.per - now)
          reset_at := now + max 0
            ((s.tokens.dropWhile (fun ts => decide (s.per < now - ts))).headD 0 + s.per - now)
          last_request := (s.tokens.getLast?).getD 0 } := rfl

/-- A moving-window limiter that denies a one-token consume from a
state respecting the capacity bound reports remaining 0 and a
nonnegative retry time at the denial instant. -/
theorem mw_denied_state_stats (s : MovingWindow) (now : ℚ)
    (hlen : (s.tokens.length : ℤ) ≤ s.rate)
    (hden : (s.consume now 1).1 = false) :
    ((s.consume now 1).2.stats now).remaining = 0 ∧
    0 ≤ ((s.consume now 1).2.stats now).retry_after := by
  have hcond : ¬ (((s.refresh now).tokens.length : ℤ) + ((1:ℕ):ℤ) ≤ s.rate) := by
    intro hc
    rw [mw_consume_eq, if_pos hc] at hden
    simp at hden
  have hpost : (s.consume now 1).2 = s.refresh now := by
    rw [mw_consume_eq, if_neg hcond]
  have hlive_le : ((s.refresh now).tokens.length : ℤ) ≤ s.rate := by
    have := mw_refresh_length_le s now
    omega
  have hlive_eq : ((s.refresh now).tokens.length : ℤ) = s.rate := by
    rw [Nat.cast_one] at hcond
    omega
  have hidem : ((s.refresh now).tokens).dropWhile
      (fun ts => decide ((s.refresh now).per < now - ts)) = (s.refresh now).tokens := by
    show ((s.tokens.dropWhile (fun ts => decide (s.per < now - ts))).dropWhile
      (fun ts => decide (s.per < now - ts))) = s.tokens.dropWhile (fun ts => decide (s.per < now - ts))
    exact dropWhile_dropWhile_self _ _
  have hnotlt : ¬ 0 < (s.refresh now).rate - (((s.refresh now).tokens).length : ℤ) := by
    show ¬ 0 < s.rate - (((s.refresh now).tokens).length : ℤ)
    omega
  constructor
  · rw [hpost, mw_stats_def, hidem, if_neg hnotlt]
    show (s.refresh now).rate - (((s.refresh now).tokens).length : ℤ) = 0
    show s.rate - (((s.refresh now).tokens).length : ℤ) = 0
    omega
  · rw [hpost, mw_stats_def, hidem, if_neg hnotlt]
    exact le_max_left _ _

theorem processRateLimit_some_eq (m : Manifest) (hasCooldown : Bool) (l : Limiter) (now : ℚ) :
    processRateLimit (some m) hasCooldown l now =
      if ¬ m.enabled = true ∨ ¬ hasCooldown = true then (none, l)
      else if (l.consume now 1).1 = true then (none, (l.consume now 1).2)
      else (some ⟨McpErrorKind.rateLimitExceeded.code, (l.consume now 1).2.stats now⟩,
        (l.consume now 1).2) := rfl

/-- C5: the claim reads: for every limiter in any reachable state, a
denied consume(1) at time t yields stats with remaining = 0 and
retry_after > 0 at the same t.  The moving-window limiter violates the
strict inequality at the exact expiry boundary: with rate 1 and per
60, a token taken at time 0 is still inside the window at time 60 (the
drop condition is strict), so the consume is denied, yet the retry
time is 60 plus the oldest timestamp minus now, which is exactly 0.
The middleware hence raises RateLimitExceeded whose embedded stats
carry retry_after = 0. -/
theorem c5_counterexample :
    ((MovingWindow.init 1 60).consume 0 1) = (true, ⟨1, 60, [0]⟩) ∧
    processRateLimit (some ⟨ManifestKind.tool, some "t", "", true, "f"⟩) true
        (Limiter.mw ⟨1, 60, [0]⟩) 60
      = (some ⟨-32006, ⟨0, 0, 60, 0⟩⟩, Limiter.mw ⟨1, 60, [0]⟩) ∧
    ¬ (0:ℚ) < (⟨-32006, ⟨0, 0, 60, 0⟩⟩ : RateLimitError).data.retry_after := by
  refine ⟨?_, ?_, by norm_num⟩
  · norm_num [MovingWindow.consume, MovingWindow.refresh, MovingWindow.init]
  · norm_num [processRateLimit, Limiter.consume, Limiter.stats, MovingWindow.consume,
      MovingWindow.refresh, MovingWindow.stats, McpErrorKind.code, List.dropWhile]

/-- C5 (amended): for every limiter constructed with rate at least 1
and positive per, in any reachable state, when the rate-limit
middleware denies a request it raises RateLimitExceeded with code
-32006 whose data field is exactly the stats of the denied bucket at
that instant, and those stats satisfy remaining = 0 and
retry_after >= 0; retry_after is strictly positive for the
fixed-window and token-bucket limiters, while the moving-window
limiter can report exactly 0 at the expiry boundary of its oldest
timestamp. -/
theorem c5_amended (rate : ℤ) (per t0 now : ℚ) (l : Limiter) (m : Option Manifest)
    (hasCooldown : Bool) (err : RateLimitError) (l2 : Limiter)
    (hrate : 1 ≤ rate) (hper : 0 < per)
    (hreach : Limiter.Reach rate per t0 l)
    (hrun : processRateLimit m hasCooldown l now = (some err, l2)) :
    err.code = -32006 ∧ err.data = l2.stats now ∧ err.data.remaining = 0 ∧
    0 ≤ err.data.retry_after ∧
    ((l.isFw || l.isTb) = true → 0 < err.data.retry_after) := by
  cases m with
  | none => simp [processRateLimit] at hrun
  | some mm =>
    rw [processRateLimit_some_eq] at hrun
    split_ifs at hrun with hpass hok
    · simp at hrun
    · simp at hrun
    · rw [Prod.mk.injEq] at hrun
      obtain ⟨h1, h2⟩ := hrun
      have herr : err = ⟨McpErrorKind.rateLimitExceeded.code, (l.consume now 1).2.stats now⟩ :=
        (Option.some.inj h1).symm
      have hden : (l.consume now 1).1 = false := by
        cases hv : (l.consume now 1).1
        · rfl
        · exact absurd hv hok
      subst h2
      rw [herr]
      refine ⟨rfl, rfl, ?_⟩
      cases l with
      | fw s =>
        obtain ⟨i1, i2, i3, i4⟩ := fw_reach_invariant hreach (by omega)
        have hd : (s.consume now 1).1 = false := hden
        obtain ⟨_, _, _, g4, g5, g6⟩ :=
          fw_denied_state_stats s now (i2 ▸ hper) i3 (by omega) hd
        exact ⟨g4, le_of_lt g6, fun _ => g6⟩
      | mw s =>
        obtain ⟨i1, i2, i3⟩ := mw_reach_invariant hreach (by omega)
        have hd : (s.consume now 1).1 = false := hden
        obtain ⟨g1, g2⟩ := mw_denied_state_stats s now i3 hd
        refine ⟨g1, g2, ?_⟩
        intro hfw
        simp [Limiter.isFw, Limiter.isTb] at hfw
      | tb s =>
        obtain ⟨i1, i2, i3, i4⟩ := tb_reach_invariant hreach
        have hd : (s.consume now 1).1 = false := hden
        obtain ⟨g1, g2⟩ := tb_denied_state_stats s now (i2 ▸ hper) (by omega) hd
        exact ⟨g1, le_of_lt g2, fun _ => g2⟩

theorem c5_amended_witness :
    (⟨-32006, ⟨0, 30, 60, 0⟩⟩ : RateLimitError).code = -32006 ∧
    (⟨-32006, ⟨0, 30, 60, 0⟩⟩ : RateLimitError).data
      = (Limiter.fw (⟨1, 60, 0, 0⟩ : FixedWindow)).stats 30 ∧
    (⟨-32006, ⟨0, 30, 60, 0⟩⟩ : RateLimitError).data.remaining = 0 ∧
    (0:ℚ) ≤ (⟨-32006, ⟨0, 30, 60, 0⟩⟩ : RateLimitError).data.retry_after ∧
    (((Limiter.fw (⟨1, 60, 0, 0⟩ : FixedWindow)).isFw ||
        (Limiter.fw (⟨1, 60, 0, 0⟩ : FixedWindow)).isTb) = true →
      (0:ℚ) < (⟨-32006, ⟨0, 30, 60, 0⟩⟩ : RateLimitError).data.retry_after) := by
  have hstate : ((FixedWindow.init 1 60 0).consume 0 1).2 = ⟨1, 60, 0, 0⟩ := by
    norm_num [FixedWindow.consume, FixedWindow.refresh, FixedWindow.init]
  have hreach : Limiter.Reach 1 60 0 (Limiter.fw ⟨1, 60, 0, 0⟩) := by
    show FixedWindow.Reach 1 60 0 ⟨1, 60, 0, 0⟩
    rw [← hstate]
    exact FixedWindow.Reach.consume _ 0 1 FixedWindow.Reach.init
  have hrun : processRateLimit (some ⟨ManifestKind.tool, some "t", "", true, "f"⟩) true
      (Limiter.fw ⟨1, 60, 0, 0⟩) 30
      = (some ⟨-32006, ⟨0, 30, 60, 0⟩⟩, Limiter.fw ⟨1, 60, 0, 0⟩) := by
    norm_num [processRateLimit, Limiter.consume, Limiter.stats, FixedWindow.consume,
      FixedWindow.refresh, FixedWindow.stats, McpErrorKind.code]
  exact c5_amended 1 60 0 30 (Limiter.fw ⟨1, 60, 0, 0⟩)
    (some ⟨ManifestKind.tool, some "t", "", true, "f"⟩) true
    ⟨-32006, ⟨0, 30, 60, 0⟩⟩ (Limiter.fw ⟨1, 60, 0, 0⟩)
    (by norm_num) (by norm_num) hreach hrun

/-- C6: the fixed-window consume follows the specified algorithm: when
now has reached the window end it refills to rate and slides the
window start to now, then consume(n) succeeds exactly when at least n
tokens remain, decrementing by n; and with rate 1, per 60, a first
consume succeeds, a second consume within the window is denied with
retry_after between 0 and 60, and a consume at or after the window end
succeeds. -/
theorem c6_fixed_window_algorithm (s : FixedWindow) (now : ℚ) (n : ℕ) (tc t0 t1 t2 : ℚ) :
    ((s.window_start + s.per ≤ now →
        s.refresh now = { s with tokens := s.rate, window_start := now }) ∧
     (¬ s.window_start + s.per ≤ now → s.refresh now = s) ∧
     ((s.consume now n).1 = true ↔ (n : ℤ) ≤ (s.refresh now).tokens) ∧
     ((n : ℤ) ≤ (s.refresh now).tokens →
        (s.consume now n).2 = { s.refresh now with tokens := (s.refresh now).tokens - n }) ∧
     (¬ (n : ℤ) ≤ (s.refresh now).tokens → (s.consume now n).2 = s.refresh now)) ∧
    (tc ≤ t0 → t0 ≤ t1 →
      (((FixedWindow.init 1 60 tc).consume t0 1).1 = true ∧
       (t1 < ((FixedWindow.init 1 60 tc).consume t0 1).2.window_start + 60 →
         ((((FixedWindow.init 1 60 tc).consume t0 1).2.consume t1 1).1 = false ∧
          0 ≤ (((((FixedWindow.init 1 60 tc).consume t0 1).2.consume t1 1).2.stats t1).retry_after) ∧
          (((((FixedWindow.init 1 60 tc).consume t0 1).2.consume t1 1).2.stats t1).retry_after) ≤ 60 ∧
          (((FixedWindow.init 1 60 tc).consume t0 1).2.window_start + 60 ≤ t2 →
            (((((FixedWindow.init 1 60 tc).consume t0 1).2.consume t1 1).2.consume t2 1).1
              = true)))))) := by
  constructor
  · refine ⟨?_, ?_, ?_, ?_, ?_⟩
    · intro h
      unfold FixedWindow.refresh
      rw [if_pos h]
    · intro h
      unfold FixedWindow.refresh
      rw [if_neg h]
    · rw [fw_consume_eq]
      split_ifs with h
      · simp [h]
      · simp [h]
    · intro h
      rw [fw_consume_eq, if_pos h]
    · intro h
      rw [fw_consume_eq, if_neg h]
  · intro htc0 ht01
    have hrr : ((FixedWindow.init 1 60 tc).refresh t0).rate = 1 := by
      unfold FixedWindow.refresh
      split_ifs <;> rfl
    have hrp : ((FixedWindow.init 1 60 tc).refresh t0).per = 60 := by
      unfold FixedWindow.refresh
      split_ifs <;> rfl
    have hrt : ((FixedWindow.init 1 60 tc).refresh t0).tokens = 1 := by
      unfold FixedWindow.refresh
      split_ifs <;> rfl
    have hrw : tc ≤ ((FixedWindow.init 1 60 tc).refresh t0).window_start ∧
        ((FixedWindow.init 1 60 tc).refresh t0).window_start ≤ t0 := by
      unfold FixedWindow.refresh
      split_ifs
      · exact ⟨htc0, le_refl t0⟩
      · exact ⟨le_refl tc, htc0⟩
    have hcnd : ((1:ℕ):ℤ) ≤ ((FixedWindow.init 1 60 tc).refresh t0).tokens := by
      rw [hrt, Nat.cast_one]
    have hc12 : ((FixedWindow.init 1 60 tc).consume t0 1).2 =
        { (FixedWindow.init 1 60 tc).refresh t0 with
          tokens := ((FixedWindow.init 1 60 tc).refresh t0).tokens - ((1:ℕ):ℤ) } := by
      rw [fw_consume_eq, if_pos hcnd]
    have hc11 : ((FixedWindow.init 1 60 tc).consume t0 1).1 = true := by
      rw [fw_consume_eq, if_pos hcnd]
    have hs1tok : ((FixedWindow.init 1 60 tc).consume t0 1).2.tokens = 0 := by
      rw [hc12]
      show ((FixedWindow.init 1 60 tc).refresh t0).tokens - ((1:ℕ):ℤ) = 0
      rw [hrt, Nat.cast_one]
      decide
    have hs1rate : ((FixedWindow.init 1 60 tc).consume t0 1).2.rate = 1 := by
      rw [hc12]
      exact hrr
    have hs1per : ((FixedWindow.init 1 60 tc).consume t0 1).2.per = 60 := by
      rw [hc12]
      exact hrp
    have hs1ws : ((FixedWindow.init 1 60 tc).consume t0 1).2.window_start =
        ((FixedWindow.init 1 60 tc).refresh t0).window_start := by
      rw [hc12]
    refine ⟨hc11, ?_⟩
    intro hwin
    have hd : (((FixedWindow.init 1 60 tc).consume t0 1).2.consume t1 1).1 = false := by
      have hnc : ¬ ((FixedWindow.init 1 60 tc).consume t0 1).2.window_start +
          ((FixedWindow.init 1 60 tc).consume t0 1).2.per ≤ t1 := by
        rw [hs1per]
        exact not_le.mpr hwin
      have href : ((FixedWindow.init 1 60 tc).consume t0 1).2.refresh t1 =
          ((FixedWindow.init 1 60 tc).consume t0 1).2 := by
        unfold FixedWindow.refresh
        rw [if_neg hnc]
      rw [fw_consume_eq, href,
        if_neg (show ¬ ((1:ℕ):ℤ) ≤ ((FixedWindow.init 1 60 tc).consume t0 1).2.tokens by
          rw [hs1tok, Nat.cast_one]; decide)]
    obtain ⟨_, _, _, g4, g5, g6⟩ :=
      fw_denied_state_stats (((FixedWindow.init 1 60 tc).consume t0 1).2) t1
        (by rw [hs1per]; norm_num) (by rw [hs1tok]) (by rw [hs1rate]) hd
    refine ⟨hd, ?_, ?_, ?_⟩
    · rw [g5, hs1per]
      have h1 : ((FixedWindow.init 1 60 tc).consume t0 1).2.window_start ≤ t1 := by
        rw [hs1ws]
        exact le_trans hrw.2 ht01
      linarith [hwin]
    · rw [g5, hs1per]
      have h1 : ((FixedWindow.init 1 60 tc).consume t0 1).2.window_start ≤ t1 := by
        rw [hs1ws]
        exact le_trans hrw.2 ht01
      linarith
    · intro ht2
      have hd2 : (((FixedWindow.init 1 60 tc).consume t0 1).2.consume t1 1).2 =
          ((FixedWindow.init 1 60 tc).consume t0 1).2 := by
        have hnc : ¬ ((FixedWindow.init 1 60 tc).consume t0 1).2.window_start +
            ((FixedWindow.init 1 60 tc).consume t0 1).2.per ≤ t1 := by
          rw [hs1per]
          exact not_le.mpr hwin
        have href : ((FixedWindow.init 1 60 tc).consume t0 1).2.refresh t1 =
            ((FixedWindow.init 1 60 tc).consume t0 1).2 := by
          unfold FixedWindow.refresh
          rw [if_neg hnc]
        rw [fw_consume_eq, href,
          if_neg (show ¬ ((1:ℕ):ℤ) ≤ ((FixedWindow.init 1 60 tc).consume t0 1).2.tokens by
            rw [hs1tok, Nat.cast_one]; decide)]
      rw [hd2]
      have hcc : ((FixedWindow.init 1 60 tc).consume t0 1).2.window_start +
          ((FixedWindow.init 1 60 tc).consume t0 1).2.per ≤ t2 := by
        rw [hs1per]
        exact ht2
      have href2 : ((FixedWindow.init 1 60 tc).consume t0 1).2.refresh t2 =
          { ((FixedWindow.init 1 60 tc).consume t0 1).2 with
            tokens := ((FixedWindow.init 1 60 tc).consume t0 1).2.rate, window_start := t2 } := by
        unfold FixedWindow.refresh
        rw [if_pos hcc]
      rw [fw_consume_eq, href2,
        if_pos (show ((1:ℕ):ℤ) ≤ ((FixedWindow.init 1 60 tc).consume t0 1).2.rate by
          rw [hs1rate, Nat.cast_one])]

theorem c6_fixed_window_algorithm_witness :
    ((FixedWindow.init 1 60 0).consume 5 1).1 = true ∧
    (((FixedWindow.init 1 60 0).consume 5 1).2.consume 20 1).1 = false ∧
    0 ≤ ((((FixedWindow.init 1 60 0).consume 5 1).2.consume 20 1).2.stats 20).retry_after ∧
    ((((FixedWindow.init 1 60 0).consume 5 1).2.consume 20 1).2.stats 20).retry_after ≤ 60 ∧
    (((((FixedWindow.init 1 60 0).consume 5 1).2.consume 20 1).2.consume 70 1).1 = true) := by
  have h := (c6_fixed_window_algorithm ⟨1, 60, 1, 0⟩ 0 1 0 5 20 70).2
    (by norm_num) (by norm_num)
  obtain ⟨h1, h2⟩ := h
  have hws : ((FixedWindow.init 1 60 0).consume 5 1).2.window_start = 0 := by
    norm_num [FixedWindow.consume, FixedWindow.refresh, FixedWindow.init]
  have hwin : (20:ℚ) < ((FixedWindow.init 1 60 0).consume 5 1).2.window_start + 60 := by
    rw [hws]
    norm_num
  obtain ⟨g1, g2, g3, g4⟩ := h2 hwin
  exact ⟨h1, g1, g2, g3, g4 (by rw [hws]; norm_num)⟩

/-- C7: the token-bucket refill adds elapsed times rate over per
tokens capped at the capacity (the configured rate), so in every state
reachable by consume and reset operations at arbitrary times the token
count never exceeds the rate. -/
theorem c7_token_bucket_capacity (rate : ℤ) (per t0 : ℚ) (s : TokenBucket)
    (h : TokenBucket.Reach rate per t0 s) : s.tokens ≤ (rate : ℚ) := by
  obtain ⟨h1, h2, h3, h4⟩ := tb_reach_invariant h
  rw [h3] at h4
  exact h4

theorem c7_token_bucket_capacity_witness :
    (((TokenBucket.init 5 60 0).consume 30 1).2.consume 1000 0).2.tokens ≤ ((5:ℤ) : ℚ) :=
  c7_token_bucket_capacity 5 60 0 _
    (TokenBucket.Reach.consume _ 1000 0
      (TokenBucket.Reach.consume _ 30 1 TokenBucket.Reach.init))

/-- C10: for every limiter constructed with capacity rate, every
reachable state and every amount strictly larger than the rate,
consume is denied: fixed-window and token-bucket token counts never
exceed rate, and the moving window requires length plus amount to fit
in rate. -/
theorem c10_over_capacity_denied (rate : ℤ) (per t0 now : ℚ) (n : ℕ)
    (fs : FixedWindow) (ms : MovingWindow) (ts : TokenBucket)
    (hf : FixedWindow.Reach rate per t0 fs)
    (hm : MovingWindow.Reach rate per ms)
    (ht : TokenBucket.Reach rate per t0 ts)
    (hrate : 0 ≤ rate) (hn : rate < (n : ℤ)) :
    (fs.consume now n).1 = false ∧ (ms.consume now n).1 = false ∧
    (ts.consume now n).1 = false := by
  obtain ⟨f1, f2, f3, f4⟩ := fw_reach_invariant hf hrate
  obtain ⟨m1, m2, m3⟩ := mw_reach_invariant hm hrate
  obtain ⟨t1, t2, t3, t4⟩ := tb_reach_invariant ht
  refine ⟨?_, ?_, ?_⟩
  · have hle : (fs.refresh now).tokens ≤ rate := by
      unfold FixedWindow.refresh
      split_ifs
      · show fs.rate ≤ rate
        omega
      · omega
    rw [fw_consume_eq, if_neg (by omega)]
  · rw [mw_consume_eq, if_neg]
    have hlive := mw_refresh_length_le ms now
    omega
  · have hle : (ts.refill now).tokens ≤ (rate : ℚ) := by
      have hcap : (ts.refill now).tokens ≤ ((ts.refill now).capacity : ℚ) := min_le_left _ _
      have hcapq : ((ts.refill now).capacity : ℚ) = (rate : ℚ) := by
        show ((ts.capacity : ℤ) : ℚ) = ((rate : ℤ) : ℚ)
        exact_mod_cast t3
      linarith
    rw [tb_consume_eq, if_neg]
    have hq : (rate : ℚ) < (n : ℚ) := by exact_mod_cast hn
    intro hcon
    have : ((n : ℕ) : ℚ) ≤ (rate : ℚ) := le_trans hcon hle
    linarith

theorem c10_over_capacity_denied_witness :
    ((FixedWindow.init 2 60 0).consume 0 3).1 = false ∧
    ((MovingWindow.init 2 60).consume 0 3).1 = false ∧
    ((TokenBucket.init 2 60 0).consume 0 3).1 = false :=
  c10_over_capacity_denied 2 60 0 0 3 _ _ _
    FixedWindow.Reach.init MovingWindow.Reach.init TokenBucket.Reach.init
    (by decide) (by decide)

end DiscordMCP
